import Mathlib

/-!
Verification development for the KTF user-space test management library
(src/lib/ktf_int.cpp). The registry (KernelTestMgr), its operations, and the
netlink response interpreters (parse_query, parse_result) are shallowly
embedded as pure functions over explicit state. C++ std::map and std::set are
modelled as key-sorted association lists; map operator access that inserts a
default-constructed value on a missing key is modelled explicitly (map_index).
Machine integers: C++ int is modelled as Int, size_t as Nat with explicit
wraparound modulo 2 to the 64 where the source relies on it, and u32 netlink
payloads as Nat with an explicit conversion to Int (i32) where the source
assigns them to int variables.
-/

/-- C++ size_t npos sentinel used by std::string find_last_of. -/
def npos : Nat := 2 ^ 64 - 1

/-- Conversion of an unsigned 32-bit payload value to a C int value,
as happens when nla_get_u32 results are stored in int variables. -/
def i32 (v : Nat) : Int :=
  if v % 2 ^ 32 < 2 ^ 31 then ((v % 2 ^ 32 : Nat) : Int)
  else ((v % 2 ^ 32 : Nat) : Int) - 2 ^ 32

/-- Lexicographic comparison of character lists by codepoint, mirroring the
byte-wise std::string ordering that std::map and std::set use for the ASCII
names of this program. Defined structurally so that it evaluates by kernel
reduction. -/
def charListLt : List Char → List Char → Bool
| [], [] => false
| [], _ :: _ => true
| _ :: _, [] => false
| a :: as, b :: bs =>
  if a.toNat < b.toNat then true
  else if b.toNat < a.toNat then false
  else charListLt as bs

/-- The std::string operator-less ordering on names. -/
def strLt (a b : String) : Bool := charListLt a.data b.data

/-- The ordering used for handle-id keys. -/
def natLt (a b : Nat) : Bool := decide (a < b)

/-- Lookup in an association list (std::map find semantics). -/
def alFind {K V : Type} [DecidableEq K] : List (K × V) → K → Option V
| [], _ => none
| (k', v) :: m, k => if k = k' then some v else alFind m k

/-- Insert-or-assign keeping the list sorted by key under the given ordering
(std::map operator square-bracket assignment / insert). -/
def alInsert {K V : Type} [DecidableEq K] (lt : K → K → Bool) :
    List (K × V) → K → V → List (K × V)
| [], k, v => [(k, v)]
| (k', v') :: m, k, v =>
  if lt k k' then (k, v) :: (k', v') :: m
  else if k = k' then (k, v) :: m
  else (k', v') :: alInsert lt m k v

/-- Erase by key (std::map erase). -/
def alErase {K V : Type} [DecidableEq K] (m : List (K × V)) (k : K) : List (K × V) :=
  m.filter (fun p => p.1 ≠ k)

/-- C++ std::map operator square-bracket: returns the mapped value, inserting a
default-constructed value first when the key is absent. Returns the value and
the possibly extended map. -/
def map_index {K V : Type} [DecidableEq K] (lt : K → K → Bool)
    (m : List (K × V)) (k : K) (d : V) : V × List (K × V) :=
  match alFind m k with
  | some v => (v, m)
  | none => (d, alInsert lt m k d)

/-- std::set membership (kernelsets.find != end). -/
def ssContains (s : List String) (x : String) : Bool := s.contains x

/-- std::set insert, keeping the element list sorted. -/
def ssInsert : List String → String → List String
| [], x => [x]
| y :: t, x => if strLt x y then x :: y :: t else if x = y then y :: t else y :: ssInsert t x

/-- std::string substr(pos, count) restricted to the in-range uses that occur
in find_test (no out-of-range exception arises on those paths). -/
def substr (s : String) (pos count : Nat) : String :=
  ⟨(s.data.drop pos).take count⟩

/-- Index of the last occurrence of a character, as Option. -/
def find_last_aux (c : Char) : List Char → Option Nat
| [] => none
| x :: xs =>
  match find_last_aux c xs with
  | some i => some (i + 1)
  | none => if x = c then some 0 else none

/-- std::string find_last_of on a single character: index of the last
occurrence, or npos when the character does not occur. -/
def find_last_of (s : String) (c : Char) : Nat :=
  (find_last_aux c s.data).getD npos

/-- User-space wrapper callbacks (test_cb pointers) modelled as opaque ids. -/
abbrev TestCb := Nat

/-- KernelTest record (class KernelTest, ktf_int.h / ktf_int.cpp lines 428-467).
The user_priv buffer is modelled by its allocation flag and size; the handle_id
member is declared in ktf_int.h (not under src) and is modelled as carrying the
constructor argument. -/
structure KernelTest where
  setname : String
  testname : String
  name : String
  setnum : Int
  testnum : Int
  handle_id : Nat
  user_test : Option TestCb
  has_user_priv : Bool
  user_priv_sz : Nat
  file : Option String
  line : Int
deriving DecidableEq

/-- ConfigurableContext record (ktf_int.cpp lines 77-144). -/
structure ConfigurableContext where
  name : String
  handle_id : Nat
  type_id : Nat
  cfg_stat : Int
deriving DecidableEq

/-- class testset (ktf_int.cpp lines 51-67). tests is a std::map from test name
to a KernelTest pointer; a key mapped to none models a null pointer entry
created by map operator access on a missing key. -/
structure testset where
  tests : List (String × Option KernelTest)
  test_names : List String
  wrapper : List (String × TestCb)
  setnum : Int
deriving DecidableEq

/-- testset default constructor: empty maps, setnum 0. -/
def testsetInit : testset := { tests := [], test_names := [], wrapper := [], setnum := 0 }

/-- struct name_iter (ktf_int.cpp lines 150-154): the enumeration cursor.
The std::map iterator is modelled as the remaining suffix of the sorted
(name, testset) list. -/
structure name_iter where
  it : List (String × testset)
  setname : String
deriving DecidableEq

/-- class KernelTestMgr state (ktf_int.cpp lines 165-210). -/
structure KernelTestMgr where
  sets : List (String × testset)
  test_names : List String
  set_names : List String
  kernelsets : List String
  handle_to_ctxvec : List (Nat × List String)
  cfg_contexts : List (String × List ConfigurableContext)
  next_set : Int
  cur : Option name_iter
deriving DecidableEq

/-- KernelTestMgr constructor: next_set(0), cur(NULL). -/
def kmgr0 : KernelTestMgr :=
  { sets := [], test_names := [], set_names := [], kernelsets := [],
    handle_to_ctxvec := [], cfg_contexts := [], next_set := 0, cur := none }

/-- KernelTestMgr::find_add_set (lines 246-267). Returns the updated state and
the testset value it yields a reference to. -/
def find_add_set (σ : KernelTestMgr) (setname : String) : KernelTestMgr × testset :=
  let new_set := !(ssContains σ.kernelsets setname)
  let σ₁ := if new_set then
    { σ with kernelsets := ssInsert σ.kernelsets setname,
             set_names := σ.set_names ++ [setname] }
    else σ
  let (ts, sets1) := map_index strLt σ₁.sets setname testsetInit
  if new_set then
    let ts2 := { ts with setnum := σ₁.next_set }
    ({ σ₁ with sets := alInsert strLt sets1 setname ts2, next_set := σ₁.next_set + 1 }, ts2)
  else
    ({ σ₁ with sets := sets1 }, ts)

/-- KernelTestMgr::find_add_test (lines 239-244). -/
def find_add_test (σ : KernelTestMgr) (setname testname : String) :
    KernelTestMgr × testset :=
  let (σ₁, ts) := find_add_set σ setname
  ({ σ₁ with test_names := σ₁.test_names ++ [testname] }, ts)

/-- KernelTest::KernelTest (lines 428-467) as invoked by
KernelTestMgr::add_test (lines 270-281). The constructor inserts the new
object into ts.tests, extends the generated name list (bare name for handle id
zero, one name per context of the owning handle otherwise, where get_contexts
uses map operator access and thus inserts an empty context list for an unknown
handle), sets testnum to the tests map size after insertion, and binds and
clears a pending wrapper entry if one exists. -/
def add_test (σ : KernelTestMgr) (setname tname : String) (handle_id : Nat) :
    KernelTestMgr :=
  let name := setname ++ "." ++ tname
  let (σ₁, ts) := find_add_test σ setname tname
  let kt0 : KernelTest :=
    { setname := setname, testname := tname, name := name, setnum := ts.setnum,
      testnum := 0, handle_id := handle_id, user_test := none,
      has_user_priv := false, user_priv_sz := 0, file := none, line := -1 }
  let tests1 := alInsert strLt ts.tests tname (some kt0)
  let (σ₂, names1) :=
    if handle_id = 0 then (σ₁, ts.test_names ++ [tname])
    else
      let (ctxv, h2c1) := map_index natLt σ₁.handle_to_ctxvec handle_id []
      ({ σ₁ with handle_to_ctxvec := h2c1 },
       ts.test_names ++ ctxv.map (fun c => tname ++ "_" ++ c))
  let testnum : Int := (tests1.length : Int)
  let (user_test, wrapper1) :=
    match alFind ts.wrapper tname with
    | some cb => (some cb, alErase ts.wrapper tname)
    | none => ((none : Option TestCb), ts.wrapper)
  let kt := { kt0 with testnum := testnum, user_test := user_test }
  let tests2 := alInsert strLt tests1 tname (some kt)
  let ts2 := { ts with tests := tests2, test_names := names1, wrapper := wrapper1 }
  { σ₂ with sets := alInsert strLt σ₂.sets setname ts2 }

/-- KernelTestMgr::add_wrapper (lines 334-354). sets[setname] and
ts.tests[testname] both use map operator access, inserting default values on
missing keys. -/
def add_wrapper (σ : KernelTestMgr) (setname testname : String) (tcb : TestCb) :
    KernelTestMgr :=
  let (ts, sets1) := map_index strLt σ.sets setname testsetInit
  let (kt, tests1) := map_index strLt ts.tests testname none
  match kt with
  | some k =>
    let k2 := { k with user_test := some tcb }
    let ts2 := { ts with tests := alInsert strLt tests1 testname (some k2) }
    { σ with sets := alInsert strLt sets1 setname ts2 }
  | none =>
    let ts2 := { ts with tests := tests1, wrapper := alInsert strLt ts.wrapper testname tcb }
    { σ with sets := alInsert strLt sets1 setname ts2 }

/-- KernelTestMgr::add_cset (lines 318-325): wholesale replacement of the
context list for a handle. -/
def add_cset (σ : KernelTestMgr) (hid : Nat) (ctxs : List String) : KernelTestMgr :=
  { σ with handle_to_ctxvec := alInsert natLt σ.handle_to_ctxvec hid ctxs }

/-- KernelTestMgr::add_configurable_context (lines 327-331). -/
def add_configurable_context (σ : KernelTestMgr) (ctx : String)
    (type_id hid : Nat) (cfg_stat : Int) : KernelTestMgr :=
  let (v, cc1) := map_index strLt σ.cfg_contexts ctx []
  let cc : ConfigurableContext :=
    { name := ctx, handle_id := hid, type_id := type_id, cfg_stat := cfg_stat }
  { σ with cfg_contexts := alInsert strLt cc1 ctx (v ++ [cc]) }

/-- The expression sets[setname].tests[x] used by find_test: both map accesses
insert defaults on missing keys (an empty testset, a null test pointer). -/
def tests_subscript (σ : KernelTestMgr) (setname tname : String) :
    Option KernelTest × KernelTestMgr :=
  let (ts, sets1) := map_index strLt σ.sets setname testsetInit
  let (kt, tests1) := map_index strLt ts.tests tname none
  (kt, { σ with sets := alInsert strLt sets1 setname { ts with tests := tests1 } })

/-- Outcome of KernelTestMgr::find_test under fuel semantics: outOfFuel means
the given iteration budget was exhausted without the source loop returning. -/
inductive FindOutcome
| found (kt : KernelTest) (ctx : String)
| notFound
| outOfFuel
deriving DecidableEq

/-- The suffix-stripping loop of KernelTestMgr::find_test (lines 303-313).
pos has C++ type size_t, so the loop condition pos >= 0 is always true and the
return NULL after the loop (line 314) is unreachable; the else branch below is
therefore dead code, kept to mirror the source. pos + 1 wraps modulo 2 to the
64 when pos is npos, so both substr calls then yield the whole string. -/
def find_test_loop (setname testname : String) :
    KernelTestMgr → Nat → Nat → FindOutcome × KernelTestMgr
| σ, _, 0 => (.outOfFuel, σ)
| σ, pos, fuel + 1 =>
  if 0 ≤ pos then
    let tname := substr testname 0 pos
    let ctx := substr testname ((pos + 1) % 2 ^ 64) npos
    let (kt, σ') := tests_subscript σ setname tname
    match kt with
    | some k => (.found k ctx, σ')
    | none => find_test_loop setname testname σ' (find_last_of tname '_') fuel
  else (.notFound, σ)

/-- KernelTestMgr::find_test (lines 285-315): direct lookup, then the
underscore suffix-stripping loop when any context lists are registered. -/
def find_test (σ : KernelTestMgr) (setname testname : String) (fuel : Nat) :
    FindOutcome × KernelTestMgr :=
  let (kt, σ₁) := tests_subscript σ setname testname
  match kt with
  | some k => (.found k "", σ₁)
  | none =>
    if σ₁.handle_to_ctxvec.isEmpty then (.notFound, σ₁)
    else find_test_loop setname testname σ₁ (find_last_of testname '_') fuel

/-- The skip loop of KernelTestMgr::get_test_names (lines 365-370): skip any
set whose wrapper map is non-empty, logging a diagnostic when its generated
name list is empty. The C++ condition evaluates the iterator dereference
before the end check, but the conjunction is false at the end iterator, so
functionally the loop stops at the end of the map. Returns the remaining
suffix and the names of sets for which the diagnostic was printed. -/
def gtn_skip : List (String × testset) → List (String × testset) × List String
| [] => ([], [])
| (n, ts) :: rest =>
  if ts.wrapper.length ≠ 0 then
    let d := if ts.test_names.length = 0 then [n] else []
    let (r, ds) := gtn_skip rest
    (r, d ++ ds)
  else ((n, ts) :: rest, [])

/-- The iterator position a get_test_names call starts from: a fresh cursor
starts at sets.begin(). -/
def cur_list (σ : KernelTestMgr) : List (String × testset) :=
  match σ.cur with
  | none => σ.sets
  | some ni => ni.it

/-- KernelTestMgr::get_test_names (lines 357-383). Returns the name list of
the next unskipped set (empty at exhaustion, which also resets the cursor),
the diagnostics emitted by the skip loop, and the updated state. -/
def get_test_names (σ : KernelTestMgr) :
    List String × List String × KernelTestMgr :=
  let (rem, diags) := gtn_skip (cur_list σ)
  match rem with
  | [] => ([], diags, { σ with cur := none })
  | (n, ts) :: rest => (ts.test_names, diags, { σ with cur := some ⟨rest, n⟩ })

/-- Repeated get_test_names calls by the external harness, until the call that
signals exhaustion (cursor reset). Returns the non-terminal outputs, all
diagnostics, and the visited set names (cur setname after each call). -/
def run_enum : Nat → KernelTestMgr → List (List String) × List String × List String
| 0, _ => ([], [], [])
| fuel + 1, σ =>
  let (v, d, σ') := get_test_names σ
  match σ'.cur with
  | none => ([], d, [])
  | some ni =>
    let (vs, ds, ns) := run_enum fuel σ'
    (v :: vs, d ++ ds, ni.setname :: ns)

/-- libnl callback action NL_OK. -/
def NL_OK : Int := 0

/-- libnl callback action NL_SKIP. -/
def NL_SKIP : Int := 1

/-- Modelled from the spec: the KTF_VERSION field-extraction macro of
kernel/ktf_unlproto.h, which is not under src. The spec describes the version
as four fields (major, minor, micro, build) packed into a single 64-bit
integer with fixed bit-field widths per component; it is modelled here as four
16-bit fields, major in the topmost bits. -/
def vfield (shift v : Nat) : Nat := v / 2 ^ shift % 2 ^ 16

/-- Major field of a packed version. -/
def vmajor (v : Nat) : Nat := vfield 48 v

/-- Minor field of a packed version. -/
def vminor (v : Nat) : Nat := vfield 32 v

/-- Modelled from the spec: KTF_VERSION_SET of kernel/ktf_unlproto.h (not
under src), placing a field value at its shift. -/
def vset (shift v : Nat) : Nat := v % 2 ^ 16 * 2 ^ shift

/-- The implicit version attributed to query responses that carry no version
attribute: KTF_VERSION_SET(MAJOR, 0) bitor KTF_VERSION_SET(MINOR, 1)
(ktf_int.cpp line 710), that is major 0, minor 1. -/
def legacy_version : Nat := vset 48 0 + vset 32 1

/-- The compatibility rule of parse_query (lines 719-721): major and minor
fields must both match. The local version KTF_VERSION_LATEST comes from
kernel/ktf_unlproto.h (not under src) and is kept as the parameter latest. -/
def is_compatible (latest kv : Nat) : Bool :=
  vmajor latest == vmajor kv && vminor latest == vminor kv

/-- One entry of the nested per-handle context list of a query response
(inner nla_for_each_nested of parse_query, lines 753-766). The inner switch
has no default case, so unrecognized types are silently ignored. -/
inductive CEntry
| str (s : String)
| num (v : Nat)
| stat (v : Nat)
| other (t : Nat)
deriving DecidableEq

/-- One entry of the KTF_A_HLIST attribute (outer nla_for_each_nested of
parse_query, lines 747-777). -/
inductive HEntry
| hid (v : Nat)
| list (es : List CEntry)
| other (t : Nat)
deriving DecidableEq

/-- One entry of a KTF_A_TEST nested attribute (parse_one_set,
lines 675-699). -/
inductive TEntry
| hid (v : Nat)
| str (s : String)
| other (t : Nat)
deriving DecidableEq

/-- One entry of the KTF_A_LIST attribute of a query response
(lines 788-807). -/
inductive SEntry
| str (s : String)
| test (es : List TEntry)
| other (t : Nat)
deriving DecidableEq

/-- The attributes of a query response that parse_query inspects. -/
structure QueryAttrs where
  version : Option Nat
  hlist : Option (List HEntry)
  num : Option Nat
  list : Option (List SEntry)
deriving DecidableEq

/-- The inner context-list loop of parse_query (lines 753-767): ctx and
type_id are locals of the enclosing scopes and persist across entries; each
KTF_A_STAT entry immediately records a configurable context. Returns the
updated state and the final (type_id, ctx, contexts) locals. -/
def parse_clist (handle_id : Nat) :
    List CEntry → KernelTestMgr → Nat → String → List String →
    KernelTestMgr × Nat × String × List String
| [], σ, type_id, ctx, contexts => (σ, type_id, ctx, contexts)
| .str s :: rest, σ, type_id, _, contexts =>
  parse_clist handle_id rest σ type_id s (contexts ++ [s])
| .num v :: rest, σ, _, ctx, contexts =>
  parse_clist handle_id rest σ v ctx contexts
| .stat v :: rest, σ, type_id, ctx, contexts =>
  parse_clist handle_id rest
    (add_configurable_context σ ctx type_id handle_id (i32 v)) type_id ctx contexts
| .other _ :: rest, σ, type_id, ctx, contexts =>
  parse_clist handle_id rest σ type_id ctx contexts

/-- The KTF_A_HLIST loop of parse_query (lines 747-777). An unexpected
attribute type aborts the whole parse with NL_SKIP, keeping the state mutated
so far. After each KTF_A_LIST entry the contexts gathered are installed for
the current handle id, which is then reset. -/
def parse_hlist :
    List HEntry → KernelTestMgr → Nat → Nat → String →
    Except (Int × KernelTestMgr) KernelTestMgr
| [], σ, _, _, _ => .ok σ
| .hid v :: rest, σ, _, type_id, ctx => parse_hlist rest σ v type_id ctx
| .list es :: rest, σ, handle_id, type_id, ctx =>
  let (σ', type_id', ctx', contexts') := parse_clist handle_id es σ type_id ctx []
  parse_hlist rest (add_cset σ' handle_id contexts') 0 type_id' ctx'
| .other _ :: _, σ, _, _, _ => .error (NL_SKIP, σ)

/-- parse_one_set (lines 675-699): each KTF_A_STR entry creates a kernel test
under the handle id most recently seen, which is then reset to 0; an
unexpected attribute type returns NL_SKIP. -/
def parse_one_set (setname : String) :
    List TEntry → KernelTestMgr → Nat → Except (Int × KernelTestMgr) KernelTestMgr
| [], σ, _ => .ok σ
| .hid v :: rest, σ, _ => parse_one_set setname rest σ v
| .str s :: rest, σ, handle_id =>
  parse_one_set setname rest (add_test σ setname s handle_id) 0
| .other _ :: _, σ, _ => .error (NL_SKIP, σ)

/-- The KTF_A_LIST loop of parse_query (lines 788-807): setname is a local
that persists across entries (initially empty); after every entry
find_add_set is invoked so that empty sets are also added; a failing
parse_one_set or an unexpected attribute type aborts with its status. -/
def parse_setlist :
    List SEntry → KernelTestMgr → String → Except (Int × KernelTestMgr) KernelTestMgr
| [], σ, _ => .ok σ
| .str s :: rest, σ, _ => parse_setlist rest (find_add_set σ s).1 s
| .test es :: rest, σ, setname =>
  match parse_one_set setname es σ 0 with
  | .error e => .error e
  | .ok σ' => parse_setlist rest (find_add_set σ' setname).1 setname
| .other _ :: _, σ, _ => .error (NL_SKIP, σ)

/-- The portion of parse_query after the version gate (lines 740-810):
handle/context table, mandatory test set count, then the test set list. -/
def parse_query_rest (attrs : QueryAttrs) (σ : KernelTestMgr) :
    Int × KernelTestMgr :=
  let step1 :=
    match attrs.hlist with
    | some es => parse_hlist es σ 0 0 ""
    | none => .ok σ
  match step1 with
  | .error (c, σ') => (c, σ')
  | .ok σ₁ =>
    match attrs.num with
    | none => (-1, σ₁)
    | some _ =>
      match attrs.list with
      | none => (NL_OK, σ₁)
      | some es =>
        match parse_setlist es σ₁ "" with
        | .error (c, σ') => (c, σ')
        | .ok σ₂ => (NL_OK, σ₂)

/-- parse_query (lines 703-811): an absent version attribute defaults to the
legacy version 0.1; when the reported version differs from the local one and
the major or minor field mismatches, the response is dropped with NL_SKIP
before any registry update; otherwise parsing proceeds. -/
def parse_query (latest : Nat) (attrs : QueryAttrs) (σ : KernelTestMgr) :
    Int × KernelTestMgr :=
  let kernel_version := attrs.version.getD legacy_version
  if kernel_version ≠ latest then
    if !is_compatible latest kernel_version then (NL_SKIP, σ)
    else parse_query_rest attrs σ
  else parse_query_rest attrs σ

/-- One entry of the KTF_A_LIST attribute of a run response (parse_result,
lines 827-863). The file and report strings may be null. -/
inductive RAttr
| stat (v : Nat)
| file (s : Option String)
| num (v : Nat)
| str (s : Option String)
| other (t : Nat)
deriving DecidableEq

/-- The attributes of a run response that parse_result inspects. -/
structure RunAttrs where
  stat : Option Nat
  list : Option (List RAttr)
deriving DecidableEq

/-- Result of interpreting a run response: the returned callback action, the
two local counters of parse_result, and the sequence of
handle_test(result, file, line, report) invocations. -/
structure RunOutcome where
  status : Int
  assert_cnt : Int
  fail_cnt : Int
  calls : List (Int × String × Int × String)
deriving DecidableEq

/-- The check-list loop of parse_result (lines 831-865). Arguments after the
entry list are the accumulator locals result, file, line, report, assert_cnt,
fail_cnt, and the handler invocations so far. A KTF_A_STAT entry first
flushes the previously accumulated tuple to the handler, then counts: a
non-zero status (as a C int) is added to assert_cnt, a zero status increments
fail_cnt and assert_cnt. An unexpected attribute type returns NL_SKIP without
the trailing flush; otherwise the last tuple is flushed after the loop. -/
def parse_result_loop :
    List RAttr → Int → String → Int → String → Int → Int →
    List (Int × String × Int × String) → RunOutcome
| [], result, file, line, report, ac, fc, calls =>
  { status := NL_OK, assert_cnt := ac, fail_cnt := fc,
    calls := calls ++ [(result, file, line, report)] }
| .stat v :: rest, result, file, line, report, ac, fc, calls =>
  let calls' := calls ++ [(result, file, line, report)]
  let result' := i32 v
  if result' ≠ 0 then
    parse_result_loop rest result' file line report (ac + result') fc calls'
  else
    parse_result_loop rest result' file line report (ac + 1) (fc + 1) calls'
| .file s :: rest, result, _, line, report, ac, fc, calls =>
  parse_result_loop rest result (s.getD "no_file") line report ac fc calls
| .num v :: rest, result, file, _, report, ac, fc, calls =>
  parse_result_loop rest result file (i32 v) report ac fc calls
| .str s :: rest, result, file, line, _, ac, fc, calls =>
  parse_result_loop rest result file line (s.getD "no_report") ac fc calls
| .other _ :: _, _, _, _, _, ac, fc, calls =>
  { status := NL_SKIP, assert_cnt := ac, fail_cnt := fc, calls := calls }

/-- parse_result (lines 814-869): when a check list is present it is folded
with initial accumulators result -1, file no_file, line 0, report no_report
and zeroed counters; without a list no handler call is made. -/
def parse_result (attrs : RunAttrs) : RunOutcome :=
  match attrs.list with
  | some es => parse_result_loop es (-1) "no_file" 0 "no_report" 0 0 []
  | none => { status := NL_OK, assert_cnt := 0, fail_cnt := 0, calls := [] }

/-- The statuses carried by a check list, in order. -/
def statusesOf (es : List RAttr) : List Nat :=
  es.filterMap (fun e => match e with | .stat v => some v | _ => none)

/-- A check list made only of the recognized attribute kinds. -/
def allRecognized (es : List RAttr) : Bool :=
  es.all (fun e => match e with | .other _ => false | _ => true)

/-- The counting rule exactly as claim C3 words it: a positive status adds its
value to the assertion counter, a zero or negative status contributes one. -/
def claim_assert_count (statuses : List Nat) : Int :=
  (statuses.map (fun v => if 0 < i32 v then i32 v else 1)).sum

/-- The failure counting rule exactly as claim C3 words it: every zero or
negative status increments the failure counter. -/
def claim_fail_count (statuses : List Nat) : Nat :=
  statuses.countP (fun v => decide (i32 v ≤ 0))

/-- The assertion counter actually computed by the source loop: any non-zero
int status adds its (possibly negative) value, a zero status adds one. -/
def code_assert_count (statuses : List Nat) : Int :=
  (statuses.map (fun v => if i32 v ≠ 0 then i32 v else 1)).sum

/-- The failure counter actually computed by the source loop: only a zero
status increments it. -/
def code_fail_count (statuses : List Nat) : Nat :=
  statuses.countP (fun v => decide (i32 v = 0))

/-- The name lists a full enumeration returns: one per set whose wrapper map
is empty, in map order. -/
def outsOf (l : List (String × testset)) : List (List String) :=
  (l.filter (fun p => p.2.wrapper.length == 0)).map (fun p => p.2.test_names)

/-- The diagnostics a full enumeration emits: one per skipped set whose
generated name list is empty. -/
def diagsOf (l : List (String × testset)) : List String :=
  (l.filter (fun p => p.2.wrapper.length != 0 && p.2.test_names.length == 0)).map
    (fun p => p.1)

/-- The set names a full enumeration visits (returns names for). -/
def visitedOf (l : List (String × testset)) : List String :=
  (l.filter (fun p => p.2.wrapper.length == 0)).map (fun p => p.1)

/-- The kernel test stored for (setname, testname), none when the set or test
is absent or the tests entry is a null pointer. -/
def lookup_test (σ : KernelTestMgr) (setname testname : String) :
    Option KernelTest :=
  match alFind σ.sets setname with
  | none => none
  | some ts => (alFind ts.tests testname).getD none

/-- The generated name list of a set before an operation ([] when the set
does not exist yet). -/
def old_names (σ : KernelTestMgr) (setname : String) : List String :=
  match alFind σ.sets setname with
  | some ts => ts.test_names
  | none => []

/-- Registry state of the C5 counterexample: set b registered before set a. -/
def c5_state : KernelTestMgr := add_test (add_test kmgr0 "b" "t1" 0) "a" "t2" 0

/-- Registry state of the C4 counterexample: set s holds a pending wrapper for
t1 and a kernel test t2. -/
def c4_state : KernelTestMgr := add_test (add_wrapper kmgr0 "s" "t1" 7) "s" "t2" 0

/-- Registry state of the C8 concrete scenario: handle 5 owns ctxA and ctxB,
test ping is created under handle 5. -/
def c8_state : KernelTestMgr :=
  add_test (add_cset kmgr0 5 ["ctxA", "ctxB"]) "s" "ping" 5

/-- The KernelTest record that resolution of ping_ctxA in c8_state returns. -/
def c8_ping : KernelTest :=
  { setname := "s", testname := "ping", name := "s.ping", setnum := 0,
    testnum := 1, handle_id := 5, user_test := none, has_user_priv := false,
    user_priv_sz := 0, file := none, line := -1 }

/-- Registry state of the C6 counterexample: set a is kernel-registered, set b
is created implicitly by wrapper registration. -/
def c6_state : KernelTestMgr := add_wrapper (find_add_set kmgr0 "a").1 "b" "t" 7

/-- Registry state of the C1 failing input: one context list is registered, so
find_test enters the suffix-stripping loop for unknown names. -/
def c1_state : KernelTestMgr := add_cset kmgr0 1 ["c"]

/-- The state after the failed direct lookup of zz in set s: the loop body
leaves it unchanged, making it the fixed point of the diverging iteration. -/
def c1_sigma : KernelTestMgr := (tests_subscript c1_state "s" "zz").2

/-- Query attributes of the C2 witness: remote minor version 2 against local
minor version 1, with inventory payload that would otherwise add a set. -/
def c2_attrs : QueryAttrs :=
  { version := some (vset 32 2),
    hlist := some [.hid 3, .list [.str "c", .num 4, .stat 0]],
    num := some 1,
    list := some [.str "s", .test [.str "t"]] }

/-- Query attributes of the C9 witness: no version attribute, with inventory
payload. -/
def c9_attrs : QueryAttrs :=
  { version := none, hlist := none, num := some 1,
    list := some [.str "s", .test [.str "t"]] }

/-- Ordinal-uniqueness invariant of the registry, restricted to the sets that
have gone through the kernel-discovery path (membership in kernelsets): each
such set exists, its ordinal is below the allocation counter, and ordinals are
pairwise distinct. -/
def RegistryInv (σ : KernelTestMgr) : Prop :=
  (∀ s ∈ σ.kernelsets, ∃ ts, alFind σ.sets s = some ts ∧ ts.setnum < σ.next_set) ∧
  (∀ s1 s2 ts1 ts2, s1 ∈ σ.kernelsets → s2 ∈ σ.kernelsets → s1 ≠ s2 →
    alFind σ.sets s1 = some ts1 → alFind σ.sets s2 = some ts2 →
    ts1.setnum ≠ ts2.setnum)

section MapLemmas

variable {K V : Type} [DecidableEq K] (lt : K → K → Bool)

theorem alFind_cons (p : K × V) (m : List (K × V)) (k : K) :
    alFind (p :: m) k = if k = p.1 then some p.2 else alFind m k := by
  obtain ⟨k0, v0⟩ := p
  rfl

theorem alFind_alInsert_self (m : List (K × V)) (k : K) (v : V) :
    alFind (alInsert lt m k v) k = some v := by
  induction m with
  | nil => simp [alInsert, alFind]
  | cons p m ih =>
    obtain ⟨k', v'⟩ := p
    by_cases h1 : lt k k'
    · simp [alInsert, h1, alFind]
    · by_cases h2 : k = k'
      · subst h2
        simp [alInsert, h1, alFind]
      · simp [alInsert, h1, h2, alFind, ih]

theorem alFind_alInsert_ne (m : List (K × V)) (k k' : K) (v : V) (h : k' ≠ k) :
    alFind (alInsert lt m k v) k' = alFind m k' := by
  induction m with
  | nil => simp [alInsert, alFind, h]
  | cons p m ih =>
    obtain ⟨k0, v0⟩ := p
    by_cases h1 : lt k k0
    · simp [alInsert, h1, alFind, h]
    · by_cases h2 : k = k0
      · subst h2
        simp [alInsert, h1, alFind, h]
      · by_cases h3 : k' = k0
        · simp [alInsert, h1, h2, alFind, h3]
        · simp [alInsert, h1, h2, alFind, h3, ih]

theorem alInsert_alInsert (hirr : ∀ a : K, lt a a = false) (m : List (K × V))
    (k : K) (v v' : V) : alInsert lt (alInsert lt m k v) k v' = alInsert lt m k v' := by
  induction m with
  | nil => simp [alInsert, hirr k]
  | cons p m ih =>
    obtain ⟨k0, v0⟩ := p
    by_cases h1 : lt k k0
    · simp [alInsert, h1, hirr k]
    · by_cases h2 : k = k0
      · subst h2
        simp [alInsert, h1]
      · simp [alInsert, h1, h2, ih]

theorem alErase_alInsert (m : List (K × V))
    (k : K) (v : V) : alErase (alInsert lt m k v) k = alErase m k := by
  induction m with
  | nil => simp [alInsert, alErase]
  | cons p m ih =>
    obtain ⟨k0, v0⟩ := p
    by_cases h1 : lt k k0
    · simp [alInsert, h1, alErase]
    · by_cases h2 : k = k0
      · subst h2
        simp [alInsert, h1, alErase]
      · simp only [alInsert, if_neg h1, if_neg h2, alErase] at ih ⊢
        simp only [List.filter_cons, decide_not]
        simp [Ne.symm h2]
        simpa using ih

theorem alErase_of_notmem (m : List (K × V)) (k : K)
    (h : alFind m k = none) : alErase m k = m := by
  induction m with
  | nil => simp [alErase]
  | cons p m ih =>
    obtain ⟨k0, v0⟩ := p
    rw [alFind_cons] at h
    by_cases h2 : k = k0
    · simp [h2] at h
    · simp [h2] at h
      simp [alErase] at ih ⊢
      exact ⟨Ne.symm h2, ih h⟩

end MapLemmas


theorem find_test_loop_fixpoint :
    ∀ fuel, find_test_loop "s" "zz" c1_sigma npos fuel = (.outOfFuel, c1_sigma) := by
  intro fuel
  induction fuel with
  | zero => rfl
  | succ fuel ih =>
    have hsub : substr "zz" 0 npos = "zz" := rfl
    have hts : tests_subscript c1_sigma "s" "zz" = (none, c1_sigma) := by
      decide
    have hlast : find_last_of "zz" '_' = npos := rfl
    simp only [find_test_loop, Nat.zero_le, if_pos, hsub, hts, hlast]
    exact ih

/-- C1: the claim states that resolution terminates, returning not-found as
soon as the remaining candidate has no underscore. In the source, pos has
type size_t, so the loop condition pos >= 0 is always true: on an unresolvable
name the loop re-examines the same candidate forever and the return NULL
after it is unreachable. With one context list registered and the unknown,
underscore-free test name zz in set s, the loop returns for no fuel bound. -/
theorem C1_find_test_diverges :
    ∀ fuel, (find_test c1_state "s" "zz" fuel).1 = FindOutcome.outOfFuel := by
  intro fuel
  have h : find_test c1_state "s" "zz" fuel
      = find_test_loop "s" "zz" c1_sigma (find_last_of "zz" '_') fuel := rfl
  rw [h, show find_last_of "zz" '_' = npos from rfl, find_test_loop_fixpoint fuel]

/-- C2: a query response whose version differs from the local one in the
major or minor field is discarded whole, leaving the registry exactly as it
was and returning NL_SKIP, while a response whose major and minor fields
match (differing at most in micro or build) proceeds into inventory
parsing. -/
theorem C2_version_mismatch_discards :
    ∀ (latest kv : Nat) (attrs : QueryAttrs) (σ : KernelTestMgr),
      attrs.version = some kv →
      ((vmajor latest ≠ vmajor kv ∨ vminor latest ≠ vminor kv) →
        parse_query latest attrs σ = (NL_SKIP, σ)) ∧
      (vmajor latest = vmajor kv → vminor latest = vminor kv →
        parse_query latest attrs σ = parse_query_rest attrs σ) := by
  intro latest kv attrs σ hv
  constructor
  · intro hmm
    have hne : kv ≠ latest := by
      intro he
      subst he
      rcases hmm with h | h <;> exact h rfl
    have hcomp : is_compatible latest kv = false := by
      rcases hmm with h | h <;> simp [is_compatible, h]
    rw [parse_query, hv]
    simp only [Option.getD_some]
    rw [if_pos hne]
    simp [hcomp]
  · intro h1 h2
    have hcomp : is_compatible latest kv = true := by
      simp [is_compatible, h1, h2]
    rw [parse_query, hv]
    simp only [Option.getD_some]
    by_cases hkv : kv = latest
    · rw [if_neg (by simp [hkv])]
    · rw [if_pos hkv]
      simp [hcomp]

theorem C2_witness :
    c2_attrs.version = some (vset 32 2) ∧
    (vmajor legacy_version ≠ vmajor (vset 32 2) ∨
      vminor legacy_version ≠ vminor (vset 32 2)) ∧
    parse_query legacy_version c2_attrs kmgr0 = (NL_SKIP, kmgr0) :=
  ⟨rfl, Or.inr (by decide),
    (C2_version_mismatch_discards legacy_version (vset 32 2) c2_attrs kmgr0 rfl).1
      (Or.inr (by decide))⟩

/-- C9: a query response with no version attribute is treated as carrying the
implicit legacy minimum version, major 0 minor 1, and under the local version
actually having major 0 and minor 1 (which the spec entails by requiring that
such responses proceed), inventory parsing proceeds instead of aborting. -/
theorem C9_version_omitted :
    ∀ (latest : Nat) (attrs : QueryAttrs) (σ : KernelTestMgr),
      attrs.version = none →
      parse_query latest attrs σ =
        parse_query latest { attrs with version := some legacy_version } σ ∧
      (vmajor latest = 0 → vminor latest = 1 →
        parse_query latest attrs σ = parse_query_rest attrs σ) := by
  intro latest attrs σ hv
  constructor
  · obtain ⟨ver, hl, nm, ls⟩ := attrs
    simp only at hv
    subst hv
    rfl
  · intro h1 h2
    have hcomp : is_compatible latest legacy_version = true := by
      have ha : vmajor legacy_version = 0 := by decide
      have hb : vminor legacy_version = 1 := by decide
      simp [is_compatible, h1, h2, ha, hb]
    rw [parse_query, hv]
    simp only [Option.getD_none]
    by_cases hkv : legacy_version = latest
    · rw [if_neg (by simp [hkv])]
    · rw [if_pos hkv]
      simp [hcomp]

theorem C9_witness :
    c9_attrs.version = none ∧ vmajor legacy_version = 0 ∧
    vminor legacy_version = 1 ∧
    parse_query legacy_version c9_attrs kmgr0 = parse_query_rest c9_attrs kmgr0 :=
  ⟨rfl, by decide, by decide,
    (C9_version_omitted legacy_version c9_attrs kmgr0 rfl).2 (by decide) (by decide)⟩

theorem parse_result_loop_counts :
    ∀ es (r : Int) (f : String) (l : Int) (rep : String) (ac fc : Int) calls,
      allRecognized es = true →
      (parse_result_loop es r f l rep ac fc calls).assert_cnt
          = ac + code_assert_count (statusesOf es) ∧
      (parse_result_loop es r f l rep ac fc calls).fail_cnt
          = fc + code_fail_count (statusesOf es) := by
  intro es
  induction es with
  | nil =>
    intro r f l rep ac fc calls _
    simp [parse_result_loop, statusesOf, code_assert_count, code_fail_count]
  | cons e rest ih =>
    intro r f l rep ac fc calls hrec
    cases e with
    | stat v =>
      have hrec' : allRecognized rest = true := by
        simpa [allRecognized] using hrec
      by_cases h0 : i32 v ≠ 0
      · have := ih (i32 v) f l rep (ac + i32 v) fc
          (calls ++ [(r, f, l, rep)]) hrec'
        simp only [parse_result_loop, if_pos h0]
        constructor
        · rw [this.1]
          simp [statusesOf, code_assert_count, h0]
          ring
        · rw [this.2]
          simp [statusesOf, code_fail_count, h0]
      · simp only [ne_eq, not_not] at h0
        have := ih (i32 v) f l rep (ac + 1) (fc + 1)
          (calls ++ [(r, f, l, rep)]) hrec'
        rw [h0] at this
        simp only [parse_result_loop, h0]
        constructor
        · simp only [ne_eq, not_true_eq_false, Bool.false_eq_true, if_false]
          rw [this.1]
          simp [statusesOf, code_assert_count, h0]
          ring
        · simp only [ne_eq, not_true_eq_false, Bool.false_eq_true, if_false]
          rw [this.2]
          simp [statusesOf, code_fail_count, h0]
          ring
    | file s =>
      have hrec' : allRecognized rest = true := by
        simpa [allRecognized] using hrec
      have := ih r (s.getD "no_file") l rep ac fc calls hrec'
      simpa [parse_result_loop, statusesOf] using this
    | num v =>
      have hrec' : allRecognized rest = true := by
        simpa [allRecognized] using hrec
      have := ih r f (i32 v) rep ac fc calls hrec'
      simpa [parse_result_loop, statusesOf] using this
    | str s =>
      have hrec' : allRecognized rest = true := by
        simpa [allRecognized] using hrec
      have := ih r f l (s.getD "no_report") ac fc calls hrec'
      simpa [parse_result_loop, statusesOf] using this
    | other t =>
      simp [allRecognized] at hrec

/-- C3 (amended): any status that is non-zero as a C int adds its (possibly
negative) int value to the assertion counter, and a zero status increments
both the failure counter and the assertion counter by one; the status
sequence 2, 0, 3 yields assertion count 6 and failure count 1. -/
theorem C3_run_accounting :
    (∀ (attrs : RunAttrs) es, attrs.list = some es → allRecognized es = true →
      (parse_result attrs).assert_cnt = code_assert_count (statusesOf es) ∧
      (parse_result attrs).fail_cnt = code_fail_count (statusesOf es)) ∧
    (parse_result { stat := none, list := some [.stat 2, .stat 0, .stat 3] }).assert_cnt = 6 ∧
    (parse_result { stat := none, list := some [.stat 2, .stat 0, .stat 3] }).fail_cnt = 1 := by
  refine ⟨?_, by decide, by decide⟩
  intro attrs es h hrec
  have := parse_result_loop_counts es (-1) "no_file" 0 "no_report" 0 0 [] hrec
  simpa [parse_result, h] using this

theorem C3_witness :
    allRecognized [RAttr.stat 2, RAttr.stat 0, RAttr.stat 3] = true ∧
    (parse_result { stat := none, list := some [.stat 2, .stat 0, .stat 3] }).assert_cnt
      = code_assert_count (statusesOf [RAttr.stat 2, RAttr.stat 0, RAttr.stat 3]) :=
  ⟨by decide,
    (C3_run_accounting.1 { stat := none, list := some [.stat 2, .stat 0, .stat 3] }
      [RAttr.stat 2, RAttr.stat 0, RAttr.stat 3] rfl (by decide)).1⟩

theorem C3_negative_status_cex :
    (parse_result { stat := none, list := some [.stat (2 ^ 32 - 1)] }).assert_cnt = -1 ∧
    (parse_result { stat := none, list := some [.stat (2 ^ 32 - 1)] }).fail_cnt = 0 ∧
    claim_assert_count [2 ^ 32 - 1] = 1 ∧
    claim_fail_count [2 ^ 32 - 1] = 1 ∧
    ((-1 : Int) ≠ 1) ∧ ((0 : Int) ≠ 1) := by
  refine ⟨?_, ?_, ?_, ?_, by decide, by decide⟩ <;> decide

theorem parse_result_loop_calls_append :
    ∀ es (r : Int) (f : String) (l : Int) (rep : String) (ac fc : Int) calls,
      (parse_result_loop es r f l rep ac fc calls).calls
        = calls ++ (parse_result_loop es r f l rep ac fc []).calls := by
  intro es
  induction es with
  | nil => intro r f l rep ac fc calls; simp [parse_result_loop]
  | cons e rest ih =>
    intro r f l rep ac fc calls
    cases e with
    | stat v =>
      by_cases h0 : i32 v ≠ 0
      · simp only [parse_result_loop, if_pos h0]
        rw [ih _ _ _ _ _ _ (calls ++ [(r, f, l, rep)]),
          ih _ _ _ _ _ _ ([] ++ [(r, f, l, rep)])]
        simp
      · simp only [ne_eq, not_not] at h0
        simp only [parse_result_loop, h0, ne_eq, not_true_eq_false,
          Bool.false_eq_true, if_false]
        rw [ih _ _ _ _ _ _ (calls ++ [(r, f, l, rep)]),
          ih _ _ _ _ _ _ ([] ++ [(r, f, l, rep)])]
        simp
    | file s => simp only [parse_result_loop]; exact ih _ _ _ _ _ _ _
    | num v => simp only [parse_result_loop]; exact ih _ _ _ _ _ _ _
    | str s => simp only [parse_result_loop]; exact ih _ _ _ _ _ _ _
    | other t => simp [parse_result_loop]

theorem parse_result_loop_calls_count :
    ∀ es (r : Int) (f : String) (l : Int) (rep : String) (ac fc : Int) calls,
      allRecognized es = true →
      (parse_result_loop es r f l rep ac fc calls).calls.length
        = calls.length + (statusesOf es).length + 1 := by
  intro es
  induction es with
  | nil => intro r f l rep ac fc calls _; simp [parse_result_loop, statusesOf]
  | cons e rest ih =>
    intro r f l rep ac fc calls hrec
    cases e with
    | stat v =>
      have hrec' : allRecognized rest = true := by simpa [allRecognized] using hrec
      by_cases h0 : i32 v ≠ 0
      · simp only [parse_result_loop, if_pos h0]
        rw [ih _ _ _ _ _ _ _ hrec']
        simp [statusesOf]
        omega
      · simp only [ne_eq, not_not] at h0
        simp only [parse_result_loop, h0, ne_eq, not_true_eq_false,
          Bool.false_eq_true, if_false]
        rw [ih _ _ _ _ _ _ _ hrec']
        simp [statusesOf]
        omega
    | file s =>
      have hrec' : allRecognized rest = true := by simpa [allRecognized] using hrec
      simp only [parse_result_loop]
      rw [ih _ _ _ _ _ _ _ hrec']
      simp [statusesOf]
    | num v =>
      have hrec' : allRecognized rest = true := by simpa [allRecognized] using hrec
      simp only [parse_result_loop]
      rw [ih _ _ _ _ _ _ _ hrec']
      simp [statusesOf]
    | str s =>
      have hrec' : allRecognized rest = true := by simpa [allRecognized] using hrec
      simp only [parse_result_loop]
      rw [ih _ _ _ _ _ _ _ hrec']
      simp [statusesOf]
    | other t => simp [allRecognized] at hrec

/-- C10 (amended): for a run response whose check list is present, begins
with a status entry, and contains only recognized check attribute kinds, the
result handler is invoked exactly (number of status entries + 1) times, and
the first invocation delivers the initial accumulator defaults: result -1,
file no_file, line 0, report no_report. -/
theorem C10_handler_calls :
    ∀ (attrs : RunAttrs) (v : Nat) rest,
      attrs.list = some (RAttr.stat v :: rest) →
      allRecognized (RAttr.stat v :: rest) = true →
      (parse_result attrs).calls.length
        = (statusesOf (RAttr.stat v :: rest)).length + 1 ∧
      (parse_result attrs).calls.head? = some (-1, "no_file", 0, "no_report") := by
  intro attrs v rest h hrec
  constructor
  · have := parse_result_loop_calls_count (RAttr.stat v :: rest)
      (-1) "no_file" 0 "no_report" 0 0 [] hrec
    simpa [parse_result, h] using this
  · rw [show (parse_result attrs).calls
        = (parse_result_loop (RAttr.stat v :: rest) (-1) "no_file" 0 "no_report" 0 0 []).calls
      from by simp [parse_result, h]]
    by_cases h0 : i32 v ≠ 0
    · simp only [parse_result_loop, if_pos h0]
      rw [parse_result_loop_calls_append]
      simp
    · simp only [ne_eq, not_not] at h0
      rw [show parse_result_loop (RAttr.stat v :: rest) (-1) "no_file" 0 "no_report" 0 0 []
          = parse_result_loop rest 0 "no_file" 0 "no_report" (0 + 1) (0 + 1)
              ([] ++ [(-1, "no_file", 0, "no_report")])
        from by simp only [parse_result_loop, h0]; simp]
      rw [parse_result_loop_calls_append]
      simp

theorem C10_witness :
    (RunAttrs.mk none (some [RAttr.stat 5])).list = some (RAttr.stat 5 :: []) ∧
    allRecognized (RAttr.stat 5 :: []) = true ∧
    (parse_result (RunAttrs.mk none (some [RAttr.stat 5]))).calls.length
      = (statusesOf (RAttr.stat 5 :: [])).length + 1 :=
  ⟨rfl, by decide,
    (C10_handler_calls (RunAttrs.mk none (some [RAttr.stat 5])) 5 [] rfl (by decide)).1⟩

theorem C10_unknown_attr_cex :
    (statusesOf [RAttr.stat 1, RAttr.other 99]).length = 1 ∧
    (parse_result { stat := none, list := some [.stat 1, .other 99] }).calls.length = 1 ∧
    (1 : Nat) ≠ 1 + 1 := by
  refine ⟨by decide, by decide, by decide⟩

theorem outsOf_cons (n : String) (ts : testset) (t : List (String × testset)) :
    outsOf ((n, ts) :: t)
      = if ts.wrapper.length = 0 then ts.test_names :: outsOf t else outsOf t := by
  by_cases h : ts.wrapper.length = 0 <;> simp [outsOf, h]

theorem visitedOf_cons (n : String) (ts : testset) (t : List (String × testset)) :
    visitedOf ((n, ts) :: t)
      = if ts.wrapper.length = 0 then n :: visitedOf t else visitedOf t := by
  by_cases h : ts.wrapper.length = 0 <;> simp [visitedOf, h]

theorem diagsOf_cons (n : String) (ts : testset) (t : List (String × testset)) :
    diagsOf ((n, ts) :: t)
      = if ts.wrapper.length ≠ 0 ∧ ts.test_names.length = 0
        then n :: diagsOf t else diagsOf t := by
  by_cases h1 : ts.wrapper.length = 0
  · simp [diagsOf, h1]
  · by_cases h2 : ts.test_names.length = 0 <;> simp [diagsOf, h1, h2]

theorem gtn_skip_exhausted :
    ∀ l, (gtn_skip l).1 = [] →
      outsOf l = [] ∧ visitedOf l = [] ∧ diagsOf l = (gtn_skip l).2 := by
  intro l
  induction l with
  | nil => intro _; simp [outsOf, visitedOf, diagsOf, gtn_skip]
  | cons p t ih =>
    obtain ⟨n, ts⟩ := p
    intro h
    by_cases hw : ts.wrapper.length ≠ 0
    · simp only [gtn_skip, if_pos hw] at h
      obtain ⟨h1, h2, h3⟩ := ih h
      refine ⟨?_, ?_, ?_⟩
      · rw [outsOf_cons, if_neg hw]
        exact h1
      · rw [visitedOf_cons, if_neg hw]
        exact h2
      · rw [diagsOf_cons]
        simp only [gtn_skip, if_pos hw]
        by_cases he : ts.test_names.length = 0
        · rw [if_pos ⟨hw, he⟩]
          simp [he, h3]
        · rw [if_neg (by simp [he])]
          simp [he, h3]
    · simp [gtn_skip, hw] at h

theorem gtn_skip_step :
    ∀ l n ts rest ds, gtn_skip l = ((n, ts) :: rest, ds) →
      outsOf l = ts.test_names :: outsOf rest ∧
      visitedOf l = n :: visitedOf rest ∧
      diagsOf l = ds ++ diagsOf rest ∧
      ts.wrapper.length = 0 ∧ rest.length < l.length := by
  intro l
  induction l with
  | nil => intro n ts rest ds h; simp [gtn_skip] at h
  | cons p t ih =>
    obtain ⟨n0, ts0⟩ := p
    intro n ts rest ds h
    by_cases hw : ts0.wrapper.length ≠ 0
    · rcases hgt : gtn_skip t with ⟨r0, ds0⟩
      simp only [gtn_skip, if_pos hw, hgt] at h
      rw [Prod.mk.injEq] at h
      obtain ⟨h1, h2⟩ := h
      subst h1
      obtain ⟨o1, o2, o3, o4, o5⟩ := ih n ts rest ds0 hgt
      refine ⟨?_, ?_, ?_, o4, ?_⟩
      · rw [outsOf_cons, if_neg hw]
        exact o1
      · rw [visitedOf_cons, if_neg hw]
        exact o2
      · rw [diagsOf_cons]
        by_cases he : ts0.test_names.length = 0
        · rw [if_pos ⟨hw, he⟩, o3, ← h2]
          simp [he]
        · rw [if_neg (by simp [he]), o3, ← h2]
          simp [he]
      · simp only [List.length_cons]
        omega
    · simp only [gtn_skip, if_neg hw] at h
      rw [Prod.mk.injEq] at h
      obtain ⟨h1, h2⟩ := h
      cases h1
      subst h2
      simp only [ne_eq, not_not] at hw
      refine ⟨?_, ?_, ?_, hw, by simp only [List.length_cons]; omega⟩
      · rw [outsOf_cons, if_pos hw]
      · rw [visitedOf_cons, if_pos hw]
      · rw [diagsOf_cons, if_neg (by simp [hw])]
        simp

theorem run_enum_spec :
    ∀ fuel (σ : KernelTestMgr), (cur_list σ).length < fuel →
      run_enum fuel σ = (outsOf (cur_list σ), diagsOf (cur_list σ), visitedOf (cur_list σ)) := by
  intro fuel
  induction fuel with
  | zero => intro σ h; omega
  | succ fuel ih =>
    intro σ h
    rcases hgt : gtn_skip (cur_list σ) with ⟨rem, ds⟩
    cases rem with
    | nil =>
      have hex := gtn_skip_exhausted (cur_list σ) (by rw [hgt])
      rw [hgt] at hex
      simp only [run_enum, get_test_names, hgt]
      rw [hex.1, hex.2.1, hex.2.2]
    | cons p rest =>
      obtain ⟨n, ts⟩ := p
      obtain ⟨o1, o2, o3, _, o5⟩ := gtn_skip_step (cur_list σ) n ts rest ds hgt
      have hlt : (cur_list { σ with cur := some ⟨rest, n⟩ }).length < fuel := by
        simp only [cur_list]
        omega
      have := ih { σ with cur := some ⟨rest, n⟩ } hlt
      simp only [cur_list] at this
      simp only [run_enum, get_test_names, hgt, this]
      rw [o1, o2, o3]

/-- C4 (amended): over successive calls from a fresh cursor, enumerate-names
returns the generated name list of exactly those sets whose wrapper-pending
map is empty, in map order; every set with a non-empty wrapper map is
skipped, with the diagnostic emitted exactly for the skipped sets whose
generated name list is also empty; the run ends when the cursor reaches the
end of the set map. -/
theorem C4_enumeration :
    ∀ (σ : KernelTestMgr) fuel, σ.cur = none → σ.sets.length < fuel →
      run_enum fuel σ = (outsOf σ.sets, diagsOf σ.sets, visitedOf σ.sets) := by
  intro σ fuel hc hf
  have hl : cur_list σ = σ.sets := by simp [cur_list, hc]
  have := run_enum_spec fuel σ (by rw [hl]; exact hf)
  rw [hl] at this
  exact this

theorem C4_witness :
    c5_state.cur = none ∧ c5_state.sets.length < 3 ∧
    run_enum 3 c5_state
      = (outsOf c5_state.sets, diagsOf c5_state.sets, visitedOf c5_state.sets) :=
  ⟨rfl, by decide, C4_enumeration c5_state 3 rfl (by decide)⟩

theorem C4_skip_cex :
    (run_enum 2 c4_state).1 = [] ∧
    (alFind c4_state.sets "s").map testset.test_names = some ["t2"] ∧
    (alFind c4_state.sets "s").map (fun ts => ts.wrapper.length) = some 1 := by
  decide

/-- C5 (amended): a full enumeration visits sets in strictly increasing
lexicographic set-name order, the iteration order of the std::map, not in
registration (first-sight ordinal) order; the two coincide only when sets are
registered in name order. -/
theorem C5_name_order :
    ∀ (σ : KernelTestMgr) fuel, σ.cur = none → σ.sets.length < fuel →
      List.Pairwise (fun a b => strLt a b = true) (σ.sets.map Prod.fst) →
      (run_enum fuel σ).2.2 = visitedOf σ.sets ∧
      List.Pairwise (fun a b => strLt a b = true) ((run_enum fuel σ).2.2) := by
  intro σ fuel hc hf hp
  have h4 : (run_enum fuel σ).2.2 = visitedOf σ.sets := by
    have hl : cur_list σ = σ.sets := by simp [cur_list, hc]
    have := run_enum_spec fuel σ (by rw [hl]; exact hf)
    rw [hl] at this
    rw [this]
  refine ⟨h4, ?_⟩
  rw [h4]
  unfold visitedOf
  rw [List.pairwise_map]
  have hp2 : List.Pairwise (fun a b : String × testset => strLt a.1 b.1 = true) σ.sets := by
    rwa [List.pairwise_map] at hp
  exact hp2.filter _

theorem C5_order_cex :
    (run_enum 3 c5_state).2.2 = ["a", "b"] ∧
    (alFind c5_state.sets "a").map testset.setnum = some 1 ∧
    (alFind c5_state.sets "b").map testset.setnum = some 0 ∧
    ¬ List.Pairwise (fun x y : Int => x < y) [1, 0] := by
  refine ⟨by decide, by decide, by decide, by decide⟩

theorem C5_witness :
    c5_state.cur = none ∧ c5_state.sets.length < 3 ∧
    List.Pairwise (fun a b => strLt a b = true) (c5_state.sets.map Prod.fst) ∧
    ((run_enum 3 c5_state).2.2 = visitedOf c5_state.sets ∧
      List.Pairwise (fun a b => strLt a b = true) ((run_enum 3 c5_state).2.2)) :=
  ⟨rfl, by decide, by decide, C5_name_order c5_state 3 rfl (by decide) (by decide)⟩

theorem ssContains_iff (l : List String) (x : String) :
    ssContains l x = true ↔ x ∈ l := by
  simp only [ssContains]
  exact List.elem_iff

theorem mem_ssInsert (l : List String) (x y : String) :
    y ∈ ssInsert l x ↔ y = x ∨ y ∈ l := by
  induction l with
  | nil => simp [ssInsert]
  | cons z t ih =>
    by_cases h1 : strLt x z
    · simp [ssInsert, h1]
    · by_cases h2 : x = z
      · subst h2
        simp [ssInsert, h1]
      · simp [ssInsert, h1, h2, ih]
        tauto

theorem ssContains_ssInsert_self (l : List String) (x : String) :
    ssContains (ssInsert l x) x = true := by
  rw [ssContains_iff, mem_ssInsert]
  left
  rfl

theorem RegistryInv_pointwise (σ σ' : KernelTestMgr)
    (hks : σ'.kernelsets = σ.kernelsets) (hns : σ'.next_set = σ.next_set)
    (hpt : ∀ s ts, s ∈ σ.kernelsets → alFind σ.sets s = some ts →
      ∃ ts', alFind σ'.sets s = some ts' ∧ ts'.setnum = ts.setnum) :
    RegistryInv σ → RegistryInv σ' := by
  intro ⟨h1, h2⟩
  constructor
  · intro s hs
    rw [hks] at hs
    obtain ⟨ts, hts, hb⟩ := h1 s hs
    obtain ⟨ts', hts', he⟩ := hpt s ts hs hts
    exact ⟨ts', hts', by rw [hns, he]; exact hb⟩
  · intro s1 s2 ts1 ts2 hs1 hs2 hne hf1 hf2
    rw [hks] at hs1 hs2
    obtain ⟨u1, hu1, hb1⟩ := h1 s1 hs1
    obtain ⟨u2, hu2, hb2⟩ := h1 s2 hs2
    obtain ⟨w1, hw1, he1⟩ := hpt s1 u1 hs1 hu1
    obtain ⟨w2, hw2, he2⟩ := hpt s2 u2 hs2 hu2
    rw [hf1] at hw1
    rw [hf2] at hw2
    cases hw1
    cases hw2
    rw [he1, he2]
    exact h2 s1 s2 u1 u2 hs1 hs2 hne hu1 hu2

theorem map_index_found {K V : Type} [DecidableEq K] (lt : K → K → Bool)
    (m : List (K × V)) (k : K) (d v : V) (h : alFind m k = some v) :
    map_index lt m k d = (v, m) := by
  simp [map_index, h]

theorem map_index_missing {K V : Type} [DecidableEq K] (lt : K → K → Bool)
    (m : List (K × V)) (k : K) (d : V) (h : alFind m k = none) :
    map_index lt m k d = (d, alInsert lt m k d) := by
  simp [map_index, h]

theorem find_add_set_old (σ : KernelTestMgr) (s : String)
    (h : ssContains σ.kernelsets s = true) :
    find_add_set σ s = ({ σ with sets := (map_index strLt σ.sets s testsetInit).2 },
      (map_index strLt σ.sets s testsetInit).1) := by
  rcases hmi : map_index strLt σ.sets s testsetInit with ⟨ts, sets1⟩
  simp [find_add_set, h, hmi]

theorem find_add_set_new (σ : KernelTestMgr) (s : String)
    (h : ssContains σ.kernelsets s = false) :
    find_add_set σ s =
      ({ σ with kernelsets := ssInsert σ.kernelsets s,
                set_names := σ.set_names ++ [s],
                sets := alInsert strLt (map_index strLt σ.sets s testsetInit).2 s
                  { (map_index strLt σ.sets s testsetInit).1 with setnum := σ.next_set },
                next_set := σ.next_set + 1 },
       { (map_index strLt σ.sets s testsetInit).1 with setnum := σ.next_set }) := by
  rcases hmi : map_index strLt σ.sets s testsetInit with ⟨ts, sets1⟩
  simp [find_add_set, h, hmi]

theorem alFind_find_add_set (σ : KernelTestMgr) (s : String) :
    alFind (find_add_set σ s).1.sets s = some (find_add_set σ s).2 := by
  rcases hss : ssContains σ.kernelsets s with _ | _
  · rw [find_add_set_new σ s hss]
    exact alFind_alInsert_self ..
  · rw [find_add_set_old σ s hss]
    rcases hf : alFind σ.sets s with _ | ts
    · rw [map_index_missing strLt σ.sets s testsetInit hf]
      exact alFind_alInsert_self ..
    · rw [map_index_found strLt σ.sets s testsetInit ts hf]
      exact hf

theorem find_add_set_same_ordinal (σ : KernelTestMgr) (s : String) :
    (find_add_set (find_add_set σ s).1 s).2.setnum = (find_add_set σ s).2.setnum := by
  have hc : ssContains (find_add_set σ s).1.kernelsets s = true := by
    rcases hss : ssContains σ.kernelsets s with _ | _
    · rw [find_add_set_new σ s hss]
      exact ssContains_ssInsert_self ..
    · rcases hmi : map_index strLt σ.sets s testsetInit with ⟨ts, sets1⟩
      rw [find_add_set_old σ s hss]
      exact hss
  rw [find_add_set_old _ s hc,
    map_index_found strLt _ s testsetInit _ (alFind_find_add_set σ s)]

theorem RegistryInv_find_add_set (σ : KernelTestMgr) (s : String) :
    RegistryInv σ → RegistryInv (find_add_set σ s).1 := by
  intro h
  rcases hss : ssContains σ.kernelsets s with _ | _
  · obtain ⟨h1, h2⟩ := h
    have hnotmem : s ∉ σ.kernelsets := by
      intro hm
      rw [← ssContains_iff] at hm
      rw [hss] at hm
      cases hm
    rw [find_add_set_new σ s hss]
    have hself : alFind (alInsert strLt (map_index strLt σ.sets s testsetInit).2 s
        { (map_index strLt σ.sets s testsetInit).1 with setnum := σ.next_set }) s
        = some { (map_index strLt σ.sets s testsetInit).1 with setnum := σ.next_set } :=
      alFind_alInsert_self ..
    have hne : ∀ s0, s0 ≠ s →
        alFind (alInsert strLt (map_index strLt σ.sets s testsetInit).2 s
          { (map_index strLt σ.sets s testsetInit).1 with setnum := σ.next_set }) s0
          = alFind σ.sets s0 := by
      intro s0 hne0
      rw [alFind_alInsert_ne _ _ _ _ _ hne0]
      rcases hf : alFind σ.sets s with _ | ts0
      · rw [map_index_missing strLt σ.sets s testsetInit hf]
        exact alFind_alInsert_ne _ _ _ _ _ hne0
      · rw [map_index_found strLt σ.sets s testsetInit _ hf]
    constructor
    · intro s0 hs0
      simp only at hs0 ⊢
      rw [mem_ssInsert] at hs0
      rcases hs0 with rfl | hs0
      · refine ⟨_, hself, ?_⟩
        simp
      · have hne0 : s0 ≠ s := fun he => hnotmem (he ▸ hs0)
        obtain ⟨ts, hts, hb⟩ := h1 s0 hs0
        refine ⟨ts, by rw [hne s0 hne0]; exact hts, ?_⟩
        omega
    · intro s1 s2 ts1 ts2 hs1 hs2 hnee hf1 hf2
      simp only at hs1 hs2 hf1 hf2
      rw [mem_ssInsert] at hs1 hs2
      rcases hs1 with rfl | hs1
      · rcases hs2 with rfl | hs2
        · exact absurd rfl hnee
        · have hne2 : s2 ≠ s1 := fun he => hnotmem (he ▸ hs2)
          rw [hself] at hf1
          cases hf1
          rw [hne s2 hne2] at hf2
          obtain ⟨u2, hu2, hb2⟩ := h1 s2 hs2
          rw [hf2] at hu2
          cases hu2
          simp only
          omega
      · rcases hs2 with rfl | hs2
        · have hne1 : s1 ≠ s2 := fun he => hnotmem (he ▸ hs1)
          rw [hself] at hf2
          cases hf2
          rw [hne s1 hne1] at hf1
          obtain ⟨u1, hu1, hb1⟩ := h1 s1 hs1
          rw [hf1] at hu1
          cases hu1
          simp only
          omega
        · have hne1 : s1 ≠ s := fun he => hnotmem (he ▸ hs1)
          have hne2 : s2 ≠ s := fun he => hnotmem (he ▸ hs2)
          rw [hne s1 hne1] at hf1
          rw [hne s2 hne2] at hf2
          exact h2 s1 s2 ts1 ts2 hs1 hs2 hnee hf1 hf2
  · rw [find_add_set_old σ s hss]
    refine RegistryInv_pointwise σ _ rfl rfl ?_ h
    intro s0 ts hs0 hts
    rcases hf : alFind σ.sets s with _ | u
    · rw [map_index_missing strLt σ.sets s testsetInit hf]
      have hne0 : s0 ≠ s := by
        intro he
        rw [he, hf] at hts
        cases hts
      refine ⟨ts, ?_, rfl⟩
      simp only
      rw [alFind_alInsert_ne _ _ _ _ _ hne0]
      exact hts
    · rw [map_index_found strLt σ.sets s testsetInit _ hf]
      exact ⟨ts, hts, rfl⟩

theorem RegistryInv_sets_insert (σ : KernelTestMgr) (s : String)
    (ts : testset) (sets1 : List (String × testset)) (ts2 : testset)
    (hmi : map_index strLt σ.sets s testsetInit = (ts, sets1))
    (hsn : ts2.setnum = ts.setnum) :
    RegistryInv σ → RegistryInv { σ with sets := alInsert strLt sets1 s ts2 } := by
  intro h
  refine RegistryInv_pointwise σ _ rfl rfl ?_ h
  intro s0 ts0 _ hts0
  by_cases he : s0 = s
  · subst he
    rw [map_index_found strLt σ.sets s0 testsetInit ts0 hts0, Prod.mk.injEq] at hmi
    obtain ⟨hts, _⟩ := hmi
    refine ⟨ts2, ?_, ?_⟩
    · exact alFind_alInsert_self ..
    · rw [hsn, ← hts]
  · refine ⟨ts0, ?_, rfl⟩
    have : alFind (alInsert strLt sets1 s ts2) s0 = alFind sets1 s0 :=
      alFind_alInsert_ne _ _ _ _ _ he
    rw [this]
    rcases hf : alFind σ.sets s with _ | u
    · rw [map_index_missing strLt σ.sets s testsetInit hf, Prod.mk.injEq] at hmi
      obtain ⟨_, hsets⟩ := hmi
      rw [← hsets, alFind_alInsert_ne _ _ _ _ _ he]
      exact hts0
    · rw [map_index_found strLt σ.sets s testsetInit u hf, Prod.mk.injEq] at hmi
      obtain ⟨_, hsets⟩ := hmi
      rw [← hsets]
      exact hts0

theorem RegistryInv_find_add_test (σ : KernelTestMgr) (s t : String) :
    RegistryInv σ → RegistryInv (find_add_test σ s t).1 := by
  intro h
  have h2 := RegistryInv_find_add_set σ s h
  rcases hfa : find_add_set σ s with ⟨σ₁, ts⟩
  rw [hfa] at h2
  simp only [find_add_test, hfa]
  exact RegistryInv_pointwise σ₁ _ rfl rfl (fun s0 ts0 _ hts => ⟨ts0, hts, rfl⟩) h2

theorem RegistryInv_add_wrapper (σ : KernelTestMgr) (s t : String) (cb : TestCb) :
    RegistryInv σ → RegistryInv (add_wrapper σ s t cb) := by
  intro h
  rcases hmi : map_index strLt σ.sets s testsetInit with ⟨ts, sets1⟩
  rcases hmi2 : map_index strLt ts.tests t none with ⟨kt, tests1⟩
  cases kt with
  | none =>
    simp only [add_wrapper, hmi, hmi2]
    exact RegistryInv_sets_insert σ s ts sets1 _ hmi rfl h
  | some k =>
    simp only [add_wrapper, hmi, hmi2]
    exact RegistryInv_sets_insert σ s ts sets1 _ hmi rfl h

theorem RegistryInv_tests_subscript (σ : KernelTestMgr) (s t : String) :
    RegistryInv σ → RegistryInv (tests_subscript σ s t).2 := by
  intro h
  rcases hmi : map_index strLt σ.sets s testsetInit with ⟨ts, sets1⟩
  rcases hmi2 : map_index strLt ts.tests t none with ⟨kt, tests1⟩
  simp only [tests_subscript, hmi, hmi2]
  exact RegistryInv_sets_insert σ s ts sets1 _ hmi rfl h

theorem RegistryInv_find_test_loop (s t : String) :
    ∀ fuel pos (σ : KernelTestMgr), RegistryInv σ →
      RegistryInv (find_test_loop s t σ pos fuel).2 := by
  intro fuel
  induction fuel with
  | zero => intro pos σ h; exact h
  | succ fuel ih =>
    intro pos σ h
    have hts := RegistryInv_tests_subscript σ s (substr t 0 pos) h
    rcases hsub : tests_subscript σ s (substr t 0 pos) with ⟨kt, σ'⟩
    rw [hsub] at hts
    cases kt with
    | some k =>
      simp only [find_test_loop, Nat.zero_le, if_pos, hsub]
      exact hts
    | none =>
      simp only [find_test_loop, Nat.zero_le, if_pos, hsub]
      exact ih _ _ hts

theorem RegistryInv_find_test (σ : KernelTestMgr) (s t : String) (fuel : Nat) :
    RegistryInv σ → RegistryInv (find_test σ s t fuel).2 := by
  intro h
  have hts := RegistryInv_tests_subscript σ s t h
  rcases hsub : tests_subscript σ s t with ⟨kt, σ'⟩
  rw [hsub] at hts
  cases kt with
  | some k => simp only [find_test, hsub]; exact hts
  | none =>
    simp only [find_test, hsub]
    by_cases he : σ'.handle_to_ctxvec.isEmpty
    · simp only [he, if_pos]
      exact hts
    · simp only [he, Bool.false_eq_true, if_false]
      exact RegistryInv_find_test_loop s t fuel _ σ' hts

theorem alFind_find_add_test (σ : KernelTestMgr) (s t : String) :
    alFind (find_add_test σ s t).1.sets s = some (find_add_test σ s t).2 := by
  have h := alFind_find_add_set σ s
  rcases hfa : find_add_set σ s with ⟨σ₁, ts⟩
  rw [hfa] at h
  simp only [find_add_test, hfa]
  exact h

theorem RegistryInv_add_test (σ : KernelTestMgr) (s t : String) (hid : Nat) :
    RegistryInv σ → RegistryInv (add_test σ s t hid) := by
  intro h
  have hA := RegistryInv_find_add_test σ s t h
  have hL := alFind_find_add_test σ s t
  rcases hfa : find_add_test σ s t with ⟨σ₁, ts⟩
  rw [hfa] at hA hL
  simp only at hA hL
  have step : ∀ (σ₂ : KernelTestMgr) (ts2 : testset),
      σ₂.sets = σ₁.sets → σ₂.kernelsets = σ₁.kernelsets →
      σ₂.next_set = σ₁.next_set → ts2.setnum = ts.setnum → RegistryInv σ₂ →
      RegistryInv { σ₂ with sets := alInsert strLt σ₂.sets s ts2 } := by
    intro σ₂ ts2 hsets hks hns hsn h2
    refine RegistryInv_pointwise σ₂ _ rfl rfl ?_ h2
    intro s0 ts0 _ hts0
    by_cases he : s0 = s
    · subst he
      rw [hsets, hL] at hts0
      cases hts0
      exact ⟨ts2, alFind_alInsert_self .., hsn⟩
    · exact ⟨ts0, by rw [alFind_alInsert_ne _ _ _ _ _ he]; exact hts0, rfl⟩
  by_cases h0 : hid = 0
  · simp only [add_test, hfa, h0, if_pos]
    exact step σ₁ _ rfl rfl rfl rfl hA
  · rcases hmc : map_index natLt σ₁.handle_to_ctxvec hid [] with ⟨ctxv, h2c1⟩
    simp only [add_test, hfa, h0, if_neg, hmc]
    rcases hw : alFind ts.wrapper t with _ | cb
    · simp only [hw]
      exact step { σ₁ with handle_to_ctxvec := h2c1 } _ rfl rfl rfl rfl hA
    · simp only [hw]
      exact step { σ₁ with handle_to_ctxvec := h2c1 } _ rfl rfl rfl rfl hA

/-- C6 (amended): every registry operation named by the claim preserves the
invariant that the sets registered through the kernel-discovery find-or-create
path hold pairwise distinct ordinals, each below the allocation counter, and
find-or-create invoked twice with the same name yields the same ordinal;
however, a set created implicitly by wrapper registration or test lookup
carries the default ordinal 0 until it is kernel-registered, so it can share
ordinal 0 with the first kernel-registered set. -/
theorem C6_ordinal_invariant :
    ∀ (σ : KernelTestMgr) (s t : String) (cb : TestCb) (hid fuel : Nat),
      RegistryInv σ →
      RegistryInv (find_add_set σ s).1 ∧
      RegistryInv (find_add_test σ s t).1 ∧
      RegistryInv (add_wrapper σ s t cb) ∧
      RegistryInv (find_test σ s t fuel).2 ∧
      RegistryInv (add_test σ s t hid) ∧
      (find_add_set (find_add_set σ s).1 s).2.setnum = (find_add_set σ s).2.setnum :=
  fun σ s t cb hid fuel h =>
    ⟨RegistryInv_find_add_set σ s h, RegistryInv_find_add_test σ s t h,
     RegistryInv_add_wrapper σ s t cb h, RegistryInv_find_test σ s t fuel h,
     RegistryInv_add_test σ s t hid h, find_add_set_same_ordinal σ s⟩

theorem C6_witness :
    RegistryInv kmgr0 ∧
    (RegistryInv (find_add_set kmgr0 "a").1 ∧
     RegistryInv (find_add_test kmgr0 "a" "t").1 ∧
     RegistryInv (add_wrapper kmgr0 "a" "t" 1) ∧
     RegistryInv (find_test kmgr0 "a" "t" 5).2 ∧
     RegistryInv (add_test kmgr0 "a" "t" 0) ∧
     (find_add_set (find_add_set kmgr0 "a").1 "a").2.setnum
        = (find_add_set kmgr0 "a").2.setnum) := by
  have h0 : RegistryInv kmgr0 := by
    constructor
    · intro s hs
      simp [kmgr0] at hs
    · intro s1 s2 ts1 ts2 hs1 hs2
      simp [kmgr0] at hs1
  exact ⟨h0, C6_ordinal_invariant kmgr0 "a" "t" 1 0 5 h0⟩

theorem C6_ordinal_cex :
    (alFind c6_state.sets "a").map testset.setnum = some 0 ∧
    (alFind c6_state.sets "b").map testset.setnum = some 0 ∧
    ("a" : String) ≠ "b" := by
  refine ⟨by decide, by decide, by decide⟩

theorem map_index_fst_names (σ : KernelTestMgr) (s : String) :
    (map_index strLt σ.sets s testsetInit).1.test_names = old_names σ s := by
  rcases hf : alFind σ.sets s with _ | u
  · rw [map_index_missing strLt σ.sets s testsetInit hf]
    simp [testsetInit, old_names, hf]
  · rw [map_index_found strLt σ.sets s testsetInit u hf]
    simp [old_names, hf]

theorem find_add_set_names (σ : KernelTestMgr) (s : String) :
    (find_add_set σ s).2.test_names = old_names σ s := by
  rcases hss : ssContains σ.kernelsets s with _ | _
  · rw [find_add_set_new σ s hss]
    exact map_index_fst_names σ s
  · rw [find_add_set_old σ s hss]
    exact map_index_fst_names σ s

theorem find_add_set_h2c (σ : KernelTestMgr) (s : String) :
    (find_add_set σ s).1.handle_to_ctxvec = σ.handle_to_ctxvec := by
  rcases hss : ssContains σ.kernelsets s with _ | _
  · rw [find_add_set_new σ s hss]
  · rw [find_add_set_old σ s hss]

theorem find_add_test_names (σ : KernelTestMgr) (s t : String) :
    (find_add_test σ s t).2.test_names = old_names σ s := by
  have h := find_add_set_names σ s
  rcases hfa : find_add_set σ s with ⟨σ₁, ts⟩
  rw [hfa] at h
  simp only [find_add_test, hfa]
  exact h

theorem find_add_test_h2c (σ : KernelTestMgr) (s t : String) :
    (find_add_test σ s t).1.handle_to_ctxvec = σ.handle_to_ctxvec := by
  have h := find_add_set_h2c σ s
  rcases hfa : find_add_set σ s with ⟨σ₁, ts⟩
  rw [hfa] at h
  simp only [find_add_test, hfa]
  exact h

/-- C8: creating a kernel test under a handle owning context names appends one
generated name per context, in list order; a test with handle id zero appends
its bare name; concretely, with handle 5 owning ctxA and ctxB, test ping
yields exactly ping_ctxA then ping_ctxB, and resolution of ping_ctxA returns
the ping record with resolved context ctxA. -/
theorem C8_name_generation :
    (∀ (σ : KernelTestMgr) (s t : String) (hid : Nat) ctxs, hid ≠ 0 →
        alFind σ.handle_to_ctxvec hid = some ctxs →
        (alFind (add_test σ s t hid).sets s).map testset.test_names
          = some (old_names σ s ++ ctxs.map (fun c => t ++ "_" ++ c))) ∧
    (∀ (σ : KernelTestMgr) (s t : String),
        (alFind (add_test σ s t 0).sets s).map testset.test_names
          = some (old_names σ s ++ [t])) ∧
    (alFind c8_state.sets "s").map testset.test_names
        = some ["ping_ctxA", "ping_ctxB"] ∧
    (find_test c8_state "s" "ping_ctxA" 1).1 = FindOutcome.found c8_ping "ctxA" ∧
    c8_ping.testname = "ping" ∧ c8_ping.name = "s.ping" := by
  refine ⟨?_, ?_, by decide, by decide, by decide, by decide⟩
  · intro σ s t hid ctxs h0 hctx
    have hnames := find_add_test_names σ s t
    have hh2c := find_add_test_h2c σ s t
    rcases hfa : find_add_test σ s t with ⟨σ₁, ts⟩
    rw [hfa] at hnames hh2c
    simp only at hnames hh2c
    have hmc : map_index natLt σ₁.handle_to_ctxvec hid [] = (ctxs, σ₁.handle_to_ctxvec) := by
      rw [hh2c]
      exact map_index_found natLt σ.handle_to_ctxvec hid [] ctxs hctx
    rcases hw : alFind ts.wrapper t with _ | cb
    · simp only [add_test, hfa, h0, if_neg, hmc, hw]
      rw [alFind_alInsert_self]
      simp [hnames]
    · simp only [add_test, hfa, h0, if_neg, hmc, hw]
      rw [alFind_alInsert_self]
      simp [hnames]
  · intro σ s t
    have hnames := find_add_test_names σ s t
    rcases hfa : find_add_test σ s t with ⟨σ₁, ts⟩
    rw [hfa] at hnames
    simp only at hnames
    rcases hw : alFind ts.wrapper t with _ | cb
    · simp only [add_test, hfa, hw]
      rw [alFind_alInsert_self]
      simp [hnames]
    · simp only [add_test, hfa, hw]
      rw [alFind_alInsert_self]
      simp [hnames]

theorem C8_witness :
    (5 : Nat) ≠ 0 ∧
    alFind (add_cset kmgr0 5 ["ctxA", "ctxB"]).handle_to_ctxvec 5
      = some ["ctxA", "ctxB"] ∧
    (alFind (add_test (add_cset kmgr0 5 ["ctxA", "ctxB"]) "s" "ping" 5).sets "s").map
        testset.test_names
      = some (old_names (add_cset kmgr0 5 ["ctxA", "ctxB"]) "s"
          ++ (["ctxA", "ctxB"].map (fun c => "ping" ++ "_" ++ c))) :=
  ⟨by decide, by decide,
    C8_name_generation.1 (add_cset kmgr0 5 ["ctxA", "ctxB"]) "s" "ping" 5
      ["ctxA", "ctxB"] (by decide) (by decide)⟩

theorem charListLt_irrefl : ∀ xs : List Char, charListLt xs xs = false := by
  intro xs
  induction xs with
  | nil => rfl
  | cons a as ih => simp [charListLt, ih]

theorem strLt_irrefl : ∀ a : String, strLt a a = false :=
  fun a => charListLt_irrefl a.data

theorem natLt_irrefl : ∀ a : Nat, natLt a a = false := by
  intro a
  simp [natLt]

theorem length_alInsert_indep {K V : Type} [DecidableEq K] (lt : K → K → Bool)
    (m : List (K × V)) (k : K) (v v' : V) :
    (alInsert lt m k v).length = (alInsert lt m k v').length := by
  induction m with
  | nil => rfl
  | cons p t ih =>
    obtain ⟨k0, v0⟩ := p
    by_cases h1 : lt k k0
    · simp [alInsert, h1]
    · by_cases h2 : k = k0
      · subst h2
        by_cases h3 : lt k k
        · simp [alInsert, h3]
        · simp [alInsert, h3]
      · simp [alInsert, h1, h2, ih]

theorem alFind_alErase {K V : Type} [DecidableEq K] (m : List (K × V)) (k : K) :
    alFind (alErase m k) k = none := by
  induction m with
  | nil => rfl
  | cons p t ih =>
    obtain ⟨k0, v0⟩ := p
    by_cases hk : k0 = k
    · simp only [alErase, List.filter_cons]
      simp [hk]
      simpa [alErase] using ih
    · simp only [alErase, List.filter_cons]
      simp only [ne_eq, hk, not_false_eq_true, decide_eq_true_eq, Bool.decide_true,
        decide_True, if_true]
      rw [alFind_cons]
      simp only [show k ≠ k0 from fun h => hk h.symm, if_false]
      simpa [alErase] using ih

theorem add_test_lookup (σ : KernelTestMgr) (s t : String) (hid : Nat) :
    (lookup_test (add_test σ s t hid) s t).isSome = true ∧
    (∀ ts', alFind (add_test σ s t hid).sets s = some ts' →
      alFind ts'.wrapper t = none) := by
  rcases hfa : find_add_test σ s t with ⟨σ₁, ts⟩
  rcases hmc : map_index natLt σ₁.handle_to_ctxvec hid [] with ⟨ctxv, h2c1⟩
  have main : ∀ (σ₂ : KernelTestMgr) (ts2 : testset) (kt : KernelTest),
      alFind ts2.tests t = some (some kt) → alFind ts2.wrapper t = none →
      (lookup_test { σ₂ with sets := alInsert strLt σ₂.sets s ts2 } s t).isSome = true ∧
      (∀ ts', alFind ({ σ₂ with sets := alInsert strLt σ₂.sets s ts2 } : KernelTestMgr).sets s
          = some ts' → alFind ts'.wrapper t = none) := by
    intro σ₂ ts2 kt hkt hwn
    constructor
    · simp only [lookup_test, alFind_alInsert_self, hkt, Option.getD_some, Option.isSome_some]
    · intro ts' hts'
      rw [alFind_alInsert_self] at hts'
      cases hts'
      exact hwn
  by_cases h0 : hid = 0
  · rcases hw : alFind ts.wrapper t with _ | cb
    · simp only [add_test, hfa, h0, if_pos, hw]
      exact main _ _ _ (alFind_alInsert_self ..) hw
    · simp only [add_test, hfa, h0, if_pos, hw]
      exact main _ _ _ (alFind_alInsert_self ..) (alFind_alErase ..)
  · rcases hw : alFind ts.wrapper t with _ | cb
    · simp only [add_test, hfa, h0, if_neg, hmc, hw]
      exact main _ _ _ (alFind_alInsert_self ..) hw
    · simp only [add_test, hfa, h0, if_neg, hmc, hw]
      exact main _ _ _ (alFind_alInsert_self ..) (alFind_alErase ..)

theorem add_wrapper_on_existing (σ0 : KernelTestMgr) (s t : String) (cb : TestCb)
    (hsome : (lookup_test σ0 s t).isSome = true) :
    (∃ kt, lookup_test (add_wrapper σ0 s t cb) s t = some kt ∧
      kt.user_test = some cb) ∧
    (∀ ts'', alFind (add_wrapper σ0 s t cb).sets s = some ts'' →
      ∃ ts0, alFind σ0.sets s = some ts0 ∧
        alFind ts''.wrapper t = alFind ts0.wrapper t) := by
  rcases hF : alFind σ0.sets s with _ | ts0
  · simp [lookup_test, hF] at hsome
  · rcases hG : alFind ts0.tests t with _ | okt
    · simp [lookup_test, hF, hG] at hsome
    · cases okt with
      | none => simp [lookup_test, hF, hG] at hsome
      | some k =>
        have hm1 := map_index_found strLt σ0.sets s testsetInit ts0 hF
        have hm2 := map_index_found strLt ts0.tests t none (some k) hG
        constructor
        · refine ⟨{ k with user_test := some cb }, ?_, rfl⟩
          simp only [add_wrapper, hm1, hm2, lookup_test, alFind_alInsert_self]
          rfl
        · intro ts'' hts''
          simp only [add_wrapper, hm1, hm2] at hts''
          rw [alFind_alInsert_self] at hts''
          refine ⟨ts0, rfl, ?_⟩
          rw [← Option.some.inj hts'']

theorem alErase_nil {K V : Type} [DecidableEq K] (k : K) :
    alErase ([] : List (K × V)) k = [] := rfl

theorem add_order_comm (σ : KernelTestMgr) (s t : String) (cb : TestCb) (hid : Nat)
    (hlt : lookup_test σ s t = none) :
    add_wrapper (add_test σ s t hid) s t cb
      = add_test (add_wrapper σ s t cb) s t hid := by
  rcases hF : alFind σ.sets s with _ | ts₀
  · rcases hss : ssContains σ.kernelsets s with _ | _ <;> by_cases h0 : hid = 0 <;>
      simp [add_wrapper, add_test, find_add_test, find_add_set, map_index, hF, hss, h0,
        alFind_alInsert_self, alFind_alInsert_ne, alInsert_alInsert strLt strLt_irrefl,
        alErase_alInsert, alFind_alErase, alErase_nil, testsetInit, alFind]
  · have hGor : alFind ts₀.tests t = none ∨ alFind ts₀.tests t = some none := by
      simp only [lookup_test, hF] at hlt
      rcases hG : alFind ts₀.tests t with _ | okt
      · exact Or.inl rfl
      · cases okt with
        | none => exact Or.inr rfl
        | some k =>
          rw [hG] at hlt
          simp at hlt
    rcases hH : alFind ts₀.wrapper t with _ | cb₀ <;>
      rcases hGor with hG | hG <;>
        rcases hss : ssContains σ.kernelsets s with _ | _ <;> by_cases h0 : hid = 0 <;>
          simp [add_wrapper, add_test, find_add_test, find_add_set, map_index, hF, hG, hH,
            hss, h0, alFind_alInsert_self, alFind_alInsert_ne,
            alInsert_alInsert strLt strLt_irrefl, alErase_alInsert, alFind_alErase,
            alErase_nil, alErase_of_notmem, testsetInit]

/-- C7: deferred wrapper binding is order-independent. For any starting
registry in which the kernel test (s, t) does not exist yet, registering the
wrapper callback before or after the kernel test creation produces the same
final state; in that state the KernelTest for (s, t) carries the callback as
its user-space callback and no pending wrapper entry for t remains. -/
theorem C7_wrapper_order_independent :
    ∀ (σ : KernelTestMgr) (s t : String) (cb : TestCb) (hid : Nat),
      lookup_test σ s t = none →
      add_wrapper (add_test σ s t hid) s t cb
        = add_test (add_wrapper σ s t cb) s t hid ∧
      (∃ kt, lookup_test (add_wrapper (add_test σ s t hid) s t cb) s t = some kt ∧
        kt.user_test = some cb) ∧
      (∀ ts', alFind (add_wrapper (add_test σ s t hid) s t cb).sets s = some ts' →
        alFind ts'.wrapper t = none) := by
  intro σ s t cb hid hlt
  refine ⟨add_order_comm σ s t cb hid hlt, ?_, ?_⟩
  · exact (add_wrapper_on_existing _ s t cb (add_test_lookup σ s t hid).1).1
  · intro ts' hts'
    obtain ⟨ts0, hts0, heq⟩ :=
      (add_wrapper_on_existing _ s t cb (add_test_lookup σ s t hid).1).2 ts' hts'
    rw [heq]
    exact (add_test_lookup σ s t hid).2 ts0 hts0

theorem C7_witness :
    lookup_test kmgr0 "a" "t" = none ∧
    add_wrapper (add_test kmgr0 "a" "t" 0) "a" "t" 7
      = add_test (add_wrapper kmgr0 "a" "t" 7) "a" "t" 0 :=
  ⟨rfl, (C7_wrapper_order_independent kmgr0 "a" "t" 7 0 rfl).1⟩
